import Mathlib

/-!
Verification of the lawdit data-room indexing pipeline.

The definitions below are a shallow embedding of the Python sources:
  - src/lawdit/indexer/pdf_processor.py      (PDFProcessor.extract_pages_as_images)
  - src/lawdit/indexer/vision_summarizer.py  (VisionSummarizer)
  - src/lawdit/indexer/google_drive_client.py (GoogleDriveClient.list_folder_contents)
  - src/lawdit/indexer/data_room_indexer.py  (DataRoomIndexer)
  - src/lawdit/indexer/cli.py                (main)
  - src/lawdit/tools/document_tools.py       (DocumentStore._load_documents)

External collaborators (Google Drive API, OpenAI API, poppler) are modelled as
oracles: deterministic functions supplied in an `Env` record, whose outcomes
(`Bool` success flags, `Except` call results) stand for the observable outcome
of the one call the code makes.  The filesystem under the working root is
modelled as an association list from immediate-subdirectory name to the
content of its `document_record.json` sidecar (absent / unparseable / parsed).
-/

namespace Lawdit

/-! ### Lexicographic string comparison

Python compares strings lexicographically by code point.  `lexLt x y` is the
strict comparison on the underlying character lists. -/

def lexLt : List Char → List Char → Bool
  | _, [] => false
  | [], _ :: _ => true
  | a :: as, b :: bs =>
    if a.toNat < b.toNat then true
    else if b.toNat < a.toNat then false
    else lexLt as bs

theorem lexLt_cons (a b : Char) (as bs : List Char) :
    lexLt (a :: as) (b :: bs) =
      (if a.toNat < b.toNat then true
       else if b.toNat < a.toNat then false
       else lexLt as bs) := rfl

/-- Comparing two lists with a common prefix reduces to comparing the tails. -/
theorem lexLt_append_left (p x y : List Char) :
    lexLt (p ++ x) (p ++ y) = lexLt x y := by
  induction p with
  | nil => rfl
  | cons c cs ih => simp [lexLt_cons, ih]

/-- For equal-length lists, a strict comparison is preserved by appending
arbitrary suffixes. -/
theorem lexLt_append_of_length_eq :
    ∀ (x y s t : List Char), x.length = y.length → lexLt x y = true →
      lexLt (x ++ s) (y ++ t) = true := by
  intro x
  induction x with
  | nil =>
    intro y s t hlen h
    cases y with
    | nil => simp [lexLt] at h
    | cons b bs => simp at hlen
  | cons a as ih =>
    intro y s t hlen h
    cases y with
    | nil => simp at hlen
    | cons b bs =>
      simp only [List.length_cons, Nat.add_right_cancel_iff] at hlen
      rw [lexLt_cons] at h
      rw [List.cons_append, List.cons_append, lexLt_cons]
      by_cases h1 : a.toNat < b.toNat
      · simp [h1]
      · by_cases h2 : b.toNat < a.toNat
        · simp [h1, h2] at h
        · simp only [h1, h2, if_false] at h ⊢
          exact ih bs s t hlen h

/-! ### Decimal rendering and zero padding

`decDigits n` is the list of decimal digits of `n`, most significant first,
exactly what Python prints for a non-negative integer.  `pagePaddedDigits`
models the `{page_num:04d}` format specifier: left-pad with zeros to a
minimum width of four. -/

def decDigitsAux : Nat → Nat → List Nat
  | 0, _ => []
  | fuel + 1, n => if n < 10 then [n] else decDigitsAux fuel (n / 10) ++ [n % 10]

def decDigits (n : Nat) : List Nat := decDigitsAux (n + 1) n

theorem decDigitsAux_eq_of_lt :
    ∀ (n f₁ f₂ : Nat), n < f₁ → n < f₂ → decDigitsAux f₁ n = decDigitsAux f₂ n := by
  intro n
  induction n using Nat.strong_induction_on with
  | _ n ih =>
    intro f₁ f₂ h1 h2
    cases f₁ with
    | zero => omega
    | succ g₁ =>
      cases f₂ with
      | zero => omega
      | succ g₂ =>
        show (if n < 10 then [n] else decDigitsAux g₁ (n / 10) ++ [n % 10])
            = (if n < 10 then [n] else decDigitsAux g₂ (n / 10) ++ [n % 10])
        by_cases h10 : n < 10
        · simp [h10]
        · have hdiv : n / 10 < n := Nat.div_lt_self (by omega) (by omega)
          simp only [h10, if_false]
          rw [ih (n / 10) hdiv g₁ g₂ (by omega) (by omega)]

theorem decDigitsAux_fuel_irrel (f n : Nat) (h : n < f) :
    decDigitsAux f n = decDigits n :=
  decDigitsAux_eq_of_lt n f (n + 1) h (by omega)

theorem decDigits_lt_ten (n : Nat) (h : n < 10) : decDigits n = [n] := by
  show decDigitsAux (n + 1) n = [n]
  have : decDigitsAux (n + 1) n
      = if n < 10 then [n] else decDigitsAux n (n / 10) ++ [n % 10] := rfl
  rw [this]
  simp [h]

theorem decDigits_ge_ten (n : Nat) (h : 10 ≤ n) :
    decDigits n = decDigits (n / 10) ++ [n % 10] := by
  show decDigitsAux (n + 1) n = _
  have heq : decDigitsAux (n + 1) n
      = if n < 10 then [n] else decDigitsAux n (n / 10) ++ [n % 10] := rfl
  rw [heq]
  have h10 : ¬ n < 10 := by omega
  simp only [h10, if_false]
  rw [decDigitsAux_fuel_irrel n (n / 10)
    (by have := Nat.div_lt_self (by omega : 0 < n) (by omega : 1 < 10); omega)]

def pagePaddedDigits (n : Nat) : List Nat :=
  List.replicate (4 - (decDigits n).length) 0 ++ decDigits n

/-- For numbers below 10000 the padded digit list is exactly the four decimal
digits, most significant first. -/
theorem pagePaddedDigits_eq_four (n : Nat) (h : n < 10000) :
    pagePaddedDigits n = [n / 1000, n / 100 % 10, n / 10 % 10, n % 10] := by
  unfold pagePaddedDigits
  by_cases h1 : n < 10
  · rw [decDigits_lt_ten n h1]
    simp only [List.length_cons, List.length_nil]
    show List.replicate 3 0 ++ [n] = _
    simp only [List.replicate, List.cons_append, List.nil_append, List.cons.injEq, and_true]
    omega
  · by_cases h2 : n < 100
    · rw [decDigits_ge_ten n (by omega), decDigits_lt_ten (n / 10) (by omega)]
      show List.replicate 2 0 ++ ([n / 10] ++ [n % 10]) = _
      simp only [List.replicate, List.cons_append, List.nil_append, List.cons.injEq, and_true]
      omega
    · by_cases h3 : n < 1000
      · rw [decDigits_ge_ten n (by omega), decDigits_ge_ten (n / 10) (by omega),
            decDigits_lt_ten (n / 10 / 10) (by omega)]
        show List.replicate 1 0 ++ (([n / 10 / 10] ++ [n / 10 % 10]) ++ [n % 10]) = _
        simp only [List.replicate, List.cons_append, List.nil_append, List.append_assoc,
          List.cons.injEq, and_true]
        omega
      · rw [decDigits_ge_ten n (by omega), decDigits_ge_ten (n / 10) (by omega),
            decDigits_ge_ten (n / 10 / 10) (by omega),
            decDigits_lt_ten (n / 10 / 10 / 10) (by omega)]
        show List.replicate 0 0 ++ _ = _
        simp only [List.replicate, List.nil_append, List.append_assoc, List.cons_append,
          List.cons.injEq, and_true]
        omega

/-! ### Page image names (PDFProcessor.extract_pages_as_images)

`pageImageName n` embeds the Python expression
`f"page_{page_num:04d}.png"`, and `pageImagePath dir n` the
`os.path.join(output_dir, ...)` that produces the saved path. -/

def digitCharOf (d : Nat) : Char := Char.ofNat (48 + d)

theorem digitCharOf_toNat (d : Nat) (h : d < 10) : (digitCharOf d).toNat = 48 + d := by
  revert h
  revert d
  decide

def pageImageName (n : Nat) : List Char :=
  "page_".data ++ (pagePaddedDigits n).map digitCharOf ++ ".png".data

def pageImagePath (outputDir : List Char) (n : Nat) : List Char :=
  outputDir ++ '/' :: pageImageName n

/-- The result of `pdf2image.convert_from_path`: `none` when parsing the PDF
raises (corrupt file, I/O error), `some pages` when it returns a list of page
images.  Page contents are irrelevant to the properties below. -/
abbrev ParsedPdf := Option (List Unit)

/-- Embedding of `PDFProcessor.extract_pages_as_images`: on a parse failure
the `except` handler returns `[]`; otherwise each page is saved under a
zero-padded sequential name and the paths are returned in page order
(`enumerate(images, start=1)`). -/
def extract_pages_as_images (pdf : ParsedPdf) (outputDir : List Char) : List (List Char) :=
  match pdf with
  | none => []
  | some pages => (List.range' 1 pages.length).map (pageImagePath outputDir)

/-! Monotonicity of the padded page names for page numbers up to 9999. -/

theorem lexLt_four_digits (w x y z w' x' y' z' : Nat)
    (hw : w < 10) (hx : x < 10) (hy : y < 10) (hz : z < 10)
    (hw' : w' < 10) (hx' : x' < 10) (hy' : y' < 10) (hz' : z' < 10)
    (hlex : w < w' ∨ (w = w' ∧ (x < x' ∨ (x = x' ∧ (y < y' ∨ (y = y' ∧ z < z')))))) :
    lexLt ([w, x, y, z].map digitCharOf) ([w', x', y', z'].map digitCharOf) = true := by
  simp only [List.map_cons, List.map_nil]
  rw [lexLt_cons, digitCharOf_toNat w hw, digitCharOf_toNat w' hw']
  rcases hlex with h | ⟨he, hlex⟩
  · simp [h]
  · subst he
    simp only [Nat.lt_irrefl, if_false]
    rw [lexLt_cons, digitCharOf_toNat x hx, digitCharOf_toNat x' hx']
    rcases hlex with h | ⟨he, hlex⟩
    · simp [h]
    · subst he
      simp only [Nat.lt_irrefl, if_false]
      rw [lexLt_cons, digitCharOf_toNat y hy, digitCharOf_toNat y' hy']
      rcases hlex with h | ⟨he, hlex⟩
      · simp [h]
      · subst he
        simp only [Nat.lt_irrefl, if_false]
        rw [lexLt_cons, digitCharOf_toNat z hz, digitCharOf_toNat z' hz']
        simp [hlex]

theorem lexLt_padded (a b : Nat) (hab : a < b) (hb : b < 10000) :
    lexLt ((pagePaddedDigits a).map digitCharOf) ((pagePaddedDigits b).map digitCharOf)
      = true := by
  rw [pagePaddedDigits_eq_four a (by omega), pagePaddedDigits_eq_four b hb]
  exact lexLt_four_digits _ _ _ _ _ _ _ _
    (by omega) (by omega) (by omega) (by omega)
    (by omega) (by omega) (by omega) (by omega)
    (by omega)

theorem pagePaddedDigits_length (n : Nat) (h : n < 10000) :
    (pagePaddedDigits n).length = 4 := by
  rw [pagePaddedDigits_eq_four n h]
  rfl

theorem lexLt_pageImagePath (dir : List Char) (a b : Nat)
    (hab : a < b) (hb : b ≤ 9999) :
    lexLt (pageImagePath dir a) (pageImagePath dir b) = true := by
  unfold pageImagePath pageImageName
  have h1 : ∀ n : Nat, dir ++ '/' :: ("page_".data ++ (pagePaddedDigits n).map digitCharOf ++ ".png".data)
      = (dir ++ '/' :: "page_".data) ++ ((pagePaddedDigits n).map digitCharOf ++ ".png".data) := by
    intro n
    simp [List.append_assoc]
  rw [h1 a, h1 b, lexLt_append_left]
  apply lexLt_append_of_length_eq
  · rw [List.length_map, List.length_map,
      pagePaddedDigits_length a (by omega), pagePaddedDigits_length b (by omega)]
  · exact lexLt_padded a b hab (by omega)

/-! ### Data model

Shallow embedding of the dictionaries the Python code passes around. -/

/-- One element of the folder listing (`files(id, name, mimeType, size)`). -/
structure FileMeta where
  id : String
  name : String
  mimeType : String
deriving DecidableEq

/-- One element of the `page_summaries` list built in
`DataRoomIndexer.process_document` step 3. -/
structure PageSummary where
  page_num : Nat
  summary : String
  image_path : String
deriving DecidableEq

/-- A page entry as persisted in `document_record.json`: the in-memory page
dictionary with `image_path` removed. -/
structure StoredPage where
  page_num : Nat
  summary : String
deriving DecidableEq

/-- The parsed content of a `document_record.json` sidecar file.  A JSON
object whose `doc_id` key is missing behaves, under the `if doc_id:` check in
`DocumentStore._load_documents`, exactly like one whose `doc_id` is the empty
string, so both are modelled by `doc_id = ""`. -/
structure SidecarJson where
  doc_id : String
  file_name : String
  mime_type : String
  total_pages : Nat
  document_summary : String
  pages : List StoredPage
deriving DecidableEq

/-- The in-memory document record returned by
`DataRoomIndexer.process_document`. -/
structure DocumentRecord where
  doc_id : String
  file_name : String
  mime_type : String
  total_pages : Nat
  document_summary : String
  pages : List PageSummary
deriving DecidableEq

/-- Content of one immediate subdirectory of the working root, as far as the
pipeline observes it: whether it holds a `document_record.json`, and whether
that file parses. -/
inductive DirContent where
  | noSidecar : DirContent
  | malformedSidecar : DirContent
  | sidecar (json : SidecarJson) : DirContent
deriving DecidableEq

/-- The working-root directory tree: immediate subdirectory name paired with
its sidecar state.  Files other than sidecars (the acquired PDF, the page
images) are invisible to every property below and are not tracked. -/
abbrev Root := List (String × DirContent)

/-- What `DocumentStore._load_documents` builds per record: the parsed JSON
dictionary plus the `_dir_path` back-reference. -/
structure LoadedRecord where
  json : SidecarJson
  dir_path : String
deriving DecidableEq

/-! Association-list primitives standing for the filesystem directory and the
Python `dict` (insertion order preserved, overwrite in place). -/

def lookup? {α : Type} : List (String × α) → String → Option α
  | [], _ => none
  | (k', v) :: rest, k => if k' = k then some v else lookup? rest k

def upsert {α : Type} : List (String × α) → String → α → List (String × α)
  | [], k, v => [(k, v)]
  | (k', v') :: rest, k, v =>
    if k' = k then (k, v) :: rest else (k', v') :: upsert rest k v

def dirExists (root : Root) (name : String) : Bool :=
  root.any (fun e => e.1 = name)

/-- `doc_dir.mkdir(parents=True, exist_ok=True)`: create the subdirectory if
absent, leave the tree unchanged if it already exists. -/
def mkdirEntry (root : Root) (name : String) : Root :=
  if dirExists root name then root else root ++ [(name, DirContent.noSidecar)]

/-- Writing `document_record.json` inside an existing subdirectory (plain
overwrite). -/
def writeSidecar (root : Root) (name : String) (j : SidecarJson) : Root :=
  root.map (fun e => if e.1 = name then (name, DirContent.sidecar j) else e)

/-! ### Collaborator oracles

Each field gives the outcome of the single call the pipeline makes to the
corresponding external collaborator; the pipeline performs no retries. -/

structure Env where
  /-- `GoogleDriveClient.download_file file_id output_path` returning its
  success flag. -/
  download_file : String → String → Bool
  /-- `GoogleDriveClient.export_as_pdf file_id output_path` success flag. -/
  export_as_pdf : String → String → Bool
  /-- `PDFProcessor.extract_pages_as_images pdf_path pages_dir` result. -/
  extract_pages : String → String → List String
  /-- Outcome of the OpenAI call inside
  `VisionSummarizer.summarize_page_image` (image path, page number). -/
  page_api : String → Nat → Except String String
  /-- Outcome of the OpenAI call inside
  `VisionSummarizer.summarize_document_from_pages`. -/
  doc_api : List PageSummary → String → Except String String

/-- `VisionSummarizer.summarize_page_image`: the whole body is wrapped in
`try/except`; on any failure it returns the sentinel
`f"Error processing page {page_number}"`. -/
def summarize_page_image (env : Env) (image_path : String) (page_number : Nat) : String :=
  match env.page_api image_path page_number with
  | Except.ok s => s
  | Except.error _ => "Error processing page " ++ toString page_number

/-- `VisionSummarizer.summarize_document_from_pages`: on any failure returns
`f"Error summarizing document {document_name}"`. -/
def summarize_document_from_pages (env : Env) (page_summaries : List PageSummary)
    (document_name : String) : String :=
  match env.doc_api page_summaries document_name with
  | Except.ok s => s
  | Except.error _ => "Error summarizing document " ++ document_name

/-! ### DataRoomIndexer.process_document -/

/-- The mime types routed to `export_as_pdf`. -/
def GOOGLE_MIME_TYPES : List String :=
  ["application/vnd.google-apps.document",
   "application/vnd.google-apps.spreadsheet",
   "application/vnd.google-apps.presentation"]

/-- `file_name.replace(" ", "_").replace("/", "_")`: both patterns are single
characters, so the two replacements are one character map. -/
def sanitizeChar (c : Char) : Char :=
  if c = ' ' then '_' else if c = '/' then '_' else c

def doc_slug_of (file_name : String) : String :=
  ⟨file_name.data.map sanitizeChar⟩

def pdf_path_of (working_dir file_name : String) : String :=
  working_dir ++ "/" ++ doc_slug_of file_name ++ "/" ++ doc_slug_of file_name ++ ".pdf"

def pages_dir_of (working_dir file_name : String) : String :=
  working_dir ++ "/" ++ doc_slug_of file_name ++ "/pages"

/-- Step 1 of `process_document`: `none` means the mime type hit the
`else: return None` branch (unsupported), `some b` the success flag of the
download or export call. -/
def acquire_source (env : Env) (file_id pdf_path mime_type : String) : Option Bool :=
  if mime_type = "application/pdf" then
    some (env.download_file file_id pdf_path)
  else if mime_type ∈ GOOGLE_MIME_TYPES then
    some (env.export_as_pdf file_id pdf_path)
  else
    none

/-- The `for page_num, image_path in enumerate(image_paths, start=1)` loop of
step 3, building the `page_summaries` list in page order. -/
def build_page_summaries (env : Env) : Nat → List String → List PageSummary
  | _, [] => []
  | page_num, image_path :: rest =>
    { page_num := page_num,
      summary := summarize_page_image env image_path page_num,
      image_path := image_path }
      :: build_page_summaries env (page_num + 1) rest

/-- The record written to `document_record.json`: the in-memory record with
`image_path` stripped from every page. -/
def storedOf (r : DocumentRecord) : SidecarJson :=
  { doc_id := r.doc_id,
    file_name := r.file_name,
    mime_type := r.mime_type,
    total_pages := r.total_pages,
    document_summary := r.document_summary,
    pages := r.pages.map (fun p => { page_num := p.page_num, summary := p.summary }) }

/-- The observable outcome of `process_document`.  The source signals failure
by `return None` at three distinct sites (each with its own log line); the
three failure constructors name those sites. -/
inductive ProcessResult where
  | unsupportedType : ProcessResult
  | acquisitionFailed : ProcessResult
  | rasterizationFailed : ProcessResult
  | success (record : DocumentRecord) : ProcessResult
deriving DecidableEq

/-- `DataRoomIndexer.process_document`.  Note the document subdirectory is
created (`doc_dir.mkdir`) before the mime type is examined. -/
def process_document (env : Env) (root : Root) (working_dir : String)
    (file_id file_name mime_type : String) : Root × ProcessResult :=
  let doc_slug := doc_slug_of file_name
  let root1 := mkdirEntry root doc_slug
  let pdf_path := pdf_path_of working_dir file_name
  match acquire_source env file_id pdf_path mime_type with
  | none => (root1, ProcessResult.unsupportedType)
  | some false => (root1, ProcessResult.acquisitionFailed)
  | some true =>
    let image_paths := env.extract_pages pdf_path (pages_dir_of working_dir file_name)
    if image_paths.isEmpty then
      (root1, ProcessResult.rasterizationFailed)
    else
      let page_summaries := build_page_summaries env 1 image_paths
      let document_summary := summarize_document_from_pages env page_summaries file_name
      let record : DocumentRecord :=
        { doc_id := file_id,
          file_name := file_name,
          mime_type := mime_type,
          total_pages := page_summaries.length,
          document_summary := document_summary,
          pages := page_summaries }
      (writeSidecar root1 doc_slug (storedOf record), ProcessResult.success record)

/-! ### DataRoomIndexer.build_data_room_index -/

/-- The per-document loop of step 2: records of successfully processed
documents are collected in listing order; a falsy result skips the file. -/
def processAll (env : Env) (working_dir : String) :
    Root → List FileMeta → Root × List DocumentRecord
  | root, [] => (root, [])
  | root, f :: fs =>
    let step := process_document env root working_dir f.id f.name f.mimeType
    let rest := processAll env working_dir step.1 fs
    match step.2 with
    | ProcessResult.success r => (rest.1, r :: rest.2)
    | _ => (rest.1, rest.2)

def headerLine : List Char := "# Data Room Index\n".data

def entryLine (r : DocumentRecord) : List Char :=
  "- **".data ++ r.doc_id.data ++ "**: ".data ++ r.file_name.data

def summaryLine (r : DocumentRecord) : List Char :=
  "  Summary: ".data ++ r.document_summary.data ++ ['\n']

/-- The two `index_lines.append` calls per document of step 3. -/
def recordLines : List DocumentRecord → List (List Char)
  | [] => []
  | r :: rs => entryLine r :: summaryLine r :: recordLines rs

/-- `"\n".join(lines)`. -/
def joinSep (sep : Char) : List (List Char) → List Char
  | [] => []
  | [l] => l
  | l :: l' :: ls => l ++ sep :: joinSep sep (l' :: ls)

/-- The rendered index text: header line then the per-document lines, joined
with newlines. -/
def index_text (records : List DocumentRecord) : List Char :=
  joinSep '\n' (headerLine :: recordLines records)

/-! ### GoogleDriveClient.list_folder_contents and the CLI -/

/-- `list_folder_contents` wraps the whole Drive interaction in `try/except`
and returns `[]` on any error.  `api` is the outcome of that interaction:
the fully paginated listing, or the exception it raised. -/
def list_folder_contents (api : Except String (List FileMeta)) : List FileMeta :=
  match api with
  | Except.ok files => files
  | Except.error _ => []

/-- `DataRoomIndexer.build_data_room_index`: list the folder, process every
file, render the index, write it to the output path (an exception from the
write propagates to the caller), and return the text. -/
def build_data_room_index (env : Env) (api : Except String (List FileMeta))
    (root : Root) (working_dir : String) (writeOk : Bool) :
    Except String (Root × List Char) :=
  let files := list_folder_contents api
  let run := processAll env working_dir root files
  let text := index_text run.2
  if writeOk then Except.ok (run.1, text) else Except.error "write failed"

/-- The `try/except` of `cli.main` around indexer construction and
`build_data_room_index`: any escaping exception prints a traceback and calls
`sys.exit(1)`; otherwise the process ends normally with exit code 0. -/
def cli_exit_code (env : Env) (api : Except String (List FileMeta))
    (root : Root) (working_dir : String) (writeOk : Bool) : Nat :=
  match build_data_room_index env api root working_dir writeOk with
  | Except.ok _ => 0
  | Except.error _ => 1

/-! ### DocumentStore._load_documents -/

/-- One iteration of the `for record_file in self.working_dir.glob(...)`
loop: a sidecar that fails to parse is skipped (logged), a parsed sidecar
with a falsy `doc_id` is skipped, otherwise the record is stored under its
`doc_id` with `_dir_path` set to the sidecar's parent directory. -/
def load_step (working_dir : String) (docs : List (String × LoadedRecord))
    (entry : String × DirContent) : List (String × LoadedRecord) :=
  match entry.2 with
  | DirContent.sidecar j =>
    if j.doc_id = "" then docs
    else upsert docs j.doc_id ⟨j, working_dir ++ "/" ++ entry.1⟩
  | _ => docs

def load_documents_loop (working_dir : String) :
    Root → List (String × LoadedRecord) → List (String × LoadedRecord)
  | [], docs => docs
  | entry :: rest, docs =>
    load_documents_loop working_dir rest (load_step working_dir docs entry)

/-- `DocumentStore._load_documents` over a working directory. -/
def load_documents (working_dir : String) (root : Root) :
    List (String × LoadedRecord) :=
  load_documents_loop working_dir root []

/-- The sidecar-write portion of `process_document` (lines creating the
document directory and dumping `record_for_json`), viewed as the `persist`
operation of the record store. -/
def persist_record (root : Root) (r : DocumentRecord) : Root :=
  writeSidecar (mkdirEntry root (doc_slug_of r.file_name)) (doc_slug_of r.file_name)
    (storedOf r)

/-! ### Association-list lemmas -/

theorem lookup?_upsert_self {α : Type} (d : List (String × α)) (k : String) (v : α) :
    lookup? (upsert d k v) k = some v := by
  induction d with
  | nil => simp [upsert, lookup?]
  | cons e rest ih =>
    by_cases h : e.1 = k
    · simp [upsert, h, lookup?]
    · simp [upsert, h, lookup?, ih]

theorem lookup?_upsert_ne {α : Type} (d : List (String × α)) (k k' : String) (v : α)
    (h : k' ≠ k) : lookup? (upsert d k' v) k = lookup? d k := by
  induction d with
  | nil => simp [upsert, lookup?, h]
  | cons e rest ih =>
    by_cases he : e.1 = k'
    · simp only [upsert, he, if_true]
      simp [lookup?, h, he]
    · simp only [upsert, he, if_false]
      simp [lookup?, ih]

theorem length_upsert_of_lookup_none {α : Type} (d : List (String × α)) (k : String)
    (v : α) (h : lookup? d k = none) : (upsert d k v).length = d.length + 1 := by
  induction d with
  | nil => rfl
  | cons e rest ih =>
    simp only [lookup?] at h
    by_cases he : e.1 = k
    · simp [he] at h
    · simp only [he, if_false] at h
      simp [upsert, he, ih h]

theorem mem_mkdirEntry (root : Root) (n : String) (a : String × DirContent)
    (h : a ∈ mkdirEntry root n) : a ∈ root ∨ a = (n, DirContent.noSidecar) := by
  unfold mkdirEntry at h
  by_cases hd : dirExists root n
  · simp [hd] at h
    exact Or.inl h
  · simp [hd] at h
    rcases h with h | h
    · exact Or.inl h
    · exact Or.inr (by simp [h])

theorem mkdirEntry_exists_name (root : Root) (n : String) :
    ∃ a ∈ mkdirEntry root n, a.1 = n := by
  unfold mkdirEntry
  by_cases hd : dirExists root n
  · simp only [hd, if_true]
    unfold dirExists at hd
    rw [List.any_eq_true] at hd
    obtain ⟨a, ha, hn⟩ := hd
    exact ⟨a, ha, by simpa using hn⟩
  · simp only [hd, if_false]
    exact ⟨(n, DirContent.noSidecar), by simp, rfl⟩

theorem mem_writeSidecar (root : Root) (n : String) (j : SidecarJson)
    (a : String × DirContent) (h : a ∈ writeSidecar root n j) :
    (a = (n, DirContent.sidecar j)) ∨ (a ∈ root ∧ a.1 ≠ n) := by
  unfold writeSidecar at h
  rw [List.mem_map] at h
  obtain ⟨b, hb, hba⟩ := h
  by_cases hbn : b.1 = n
  · left; simp [hbn] at hba; exact hba.symm
  · right
    simp only [hbn, if_false] at hba
    exact ⟨hba ▸ hb, hba ▸ hbn⟩

theorem writeSidecar_mem_target (root : Root) (n : String) (j : SidecarJson)
    (h : ∃ a ∈ root, a.1 = n) :
    (n, DirContent.sidecar j) ∈ writeSidecar root n j := by
  obtain ⟨a, ha, hn⟩ := h
  unfold writeSidecar
  rw [List.mem_map]
  exact ⟨a, ha, by simp [hn]⟩

theorem lookup?_writeSidecar_of_exists (root : Root) (n : String) (j : SidecarJson)
    (h : dirExists root n = true) :
    lookup? (writeSidecar root n j) n = some (DirContent.sidecar j) := by
  induction root with
  | nil => simp [dirExists] at h
  | cons e rest ih =>
    by_cases he : e.1 = n
    · simp only [writeSidecar, List.map_cons, if_pos he]
      simp [lookup?]
    · have h' : dirExists rest n = true := by
        unfold dirExists at h ⊢
        simp only [List.any_cons, Bool.or_eq_true] at h
        rcases h with h | h
        · exact absurd (by simpa using h) he
        · exact h
      simp only [writeSidecar, List.map_cons, he, if_false]
      simp only [lookup?, he, if_false]
      exact ih h'

theorem dirExists_mkdirEntry (root : Root) (n : String) :
    dirExists (mkdirEntry root n) n = true := by
  obtain ⟨a, ha, hn⟩ := mkdirEntry_exists_name root n
  unfold dirExists
  rw [List.any_eq_true]
  exact ⟨a, ha, by simpa using hn⟩

theorem lookup?_persist (root : Root) (n : String) (j : SidecarJson) :
    lookup? (writeSidecar (mkdirEntry root n) n j) n = some (DirContent.sidecar j) :=
  lookup?_writeSidecar_of_exists (mkdirEntry root n) n j (dirExists_mkdirEntry root n)

/-! ### Sample environment used for concrete evaluations -/

/-- A simple oracle environment: every collaborator call succeeds, the PDF
renders to a single page. -/
def env0 : Env where
  download_file := fun _ _ => true
  export_as_pdf := fun _ _ => true
  extract_pages := fun _ _ => ["p1"]
  page_api := fun _ _ => Except.ok "page summary"
  doc_api := fun _ _ => Except.ok "doc summary"

/-! ### C1: exit-code policy -/

/-- C1 (amended): a failure of the folder-listing collaborator is caught
inside `list_folder_contents`, which returns the empty list; the run then
completes normally (an empty index) and the CLI exits 0.  The exit code is 1
exactly when an exception escapes `build_data_room_index` — in this pipeline,
failure to write the output file — and 0 otherwise, regardless of listing
outcome or per-document failures. -/
theorem C1_exit_code_policy (env : Env) (e : String)
    (api : Except String (List FileMeta)) (root : Root) (wd : String) (w : Bool) :
    list_folder_contents (Except.error e) = [] ∧
    cli_exit_code env (Except.error e) root wd true = 0 ∧
    cli_exit_code env api root wd w = (if w then 0 else 1) := by
  refine ⟨rfl, ?_, ?_⟩
  · rfl
  · cases w <;> rfl

/-- C1 counterexample: the claim asserts that a listing failure aborts the
CLI run with a non-zero exit code; in the code the listing client swallows
the error and the run exits 0. -/
theorem C1_counterexample :
    ¬ (cli_exit_code env0 (Except.error "API Error") [] "wd" true ≠ 0) := by
  intro h
  exact h rfl

/-! ### C2: unsupported mime type -/

/-- C2 (amended): an unrecognized mime type makes `process_document` return
the unsupported-type failure without attempting any download, but the
document's subdirectory has already been created: `doc_dir.mkdir` runs
before the mime-type dispatch, so the working root gains exactly that (empty)
subdirectory and is otherwise unchanged. -/
theorem C2_unsupported_creates_dir (env : Env) (root : Root)
    (wd id name mime : String)
    (h1 : mime ≠ "application/pdf") (h2 : mime ∉ GOOGLE_MIME_TYPES) :
    process_document env root wd id name mime
      = (mkdirEntry root (doc_slug_of name), ProcessResult.unsupportedType) := by
  unfold process_document acquire_source
  simp [h1, h2]

theorem C2_witness :
    process_document env0 [] "wd" "f1" "video.mp4" "video/mp4"
      = (mkdirEntry [] (doc_slug_of "video.mp4"), ProcessResult.unsupportedType) :=
  C2_unsupported_creates_dir env0 [] "wd" "f1" "video.mp4" "video/mp4"
    (by decide) (by decide)

/-- C2 counterexample: processing a `video/mp4` descriptor against an empty
working root returns `UnsupportedType` but leaves a newly created
subdirectory behind — the working-root tree is not unchanged. -/
theorem C2_counterexample :
    (process_document env0 [] "wd" "f1" "video.mp4" "video/mp4").2
        = ProcessResult.unsupportedType ∧
    (process_document env0 [] "wd" "f1" "video.mp4" "video/mp4").1 ≠ ([] : Root) := by
  constructor
  · rfl
  · decide

/-! ### Properties of the page-summary loop -/

theorem build_page_summaries_length (env : Env) :
    ∀ (ps : List String) (s : Nat), (build_page_summaries env s ps).length = ps.length := by
  intro ps
  induction ps with
  | nil => intro s; rfl
  | cons p rest ih => intro s; simp [build_page_summaries, ih]

theorem build_page_summaries_page_num (env : Env) :
    ∀ (ps : List String) (s i : Nat) (hi : i < (build_page_summaries env s ps).length),
      ((build_page_summaries env s ps).get ⟨i, hi⟩).page_num = s + i := by
  intro ps
  induction ps with
  | nil => intro s i hi; simp [build_page_summaries] at hi
  | cons p rest ih =>
    intro s i hi
    cases i with
    | zero => rfl
    | succ m =>
      have hm : m < (build_page_summaries env (s + 1) rest).length := by
        simpa [build_page_summaries] using hi
      have : ((build_page_summaries env s (p :: rest)).get ⟨m + 1, hi⟩)
          = (build_page_summaries env (s + 1) rest).get ⟨m, hm⟩ := rfl
      rw [this, ih (s + 1) m hm]
      omega

theorem build_page_summaries_getElem? (env : Env) :
    ∀ (ps : List String) (s i : Nat) (hi : i < ps.length),
      (build_page_summaries env s ps)[i]?
        = some { page_num := s + i,
                 summary := summarize_page_image env (ps.get ⟨i, hi⟩) (s + i),
                 image_path := ps.get ⟨i, hi⟩ } := by
  intro ps
  induction ps with
  | nil => intro s i hi; simp at hi
  | cons p rest ih =>
    intro s i hi
    cases i with
    | zero => simp [build_page_summaries]
    | succ m =>
      have hm : m < rest.length := by simpa using hi
      simp only [build_page_summaries, List.getElem?_cons_succ]
      rw [ih (s + 1) m hm]
      have h1 : s + 1 + m = s + (m + 1) := by omega
      have h2 : (p :: rest).get ⟨m + 1, hi⟩ = rest.get ⟨m, hm⟩ := rfl
      rw [h1, h2]

/-! ### The success path of process_document -/

/-- The record literal built at the end of `process_document` when every
prior step succeeded, as a function of the extracted image paths. -/
def successRecord (env : Env) (file_id file_name mime_type : String)
    (paths : List String) : DocumentRecord :=
  { doc_id := file_id,
    file_name := file_name,
    mime_type := mime_type,
    total_pages := (build_page_summaries env 1 paths).length,
    document_summary :=
      summarize_document_from_pages env (build_page_summaries env 1 paths) file_name,
    pages := build_page_summaries env 1 paths }

theorem process_document_success_eq (env : Env) (root : Root) (wd id name mime : String)
    (paths : List String)
    (hacq : acquire_source env id (pdf_path_of wd name) mime = some true)
    (hext : env.extract_pages (pdf_path_of wd name) (pages_dir_of wd name) = paths)
    (hne : paths ≠ []) :
    process_document env root wd id name mime
      = (writeSidecar (mkdirEntry root (doc_slug_of name)) (doc_slug_of name)
           (storedOf (successRecord env id name mime paths)),
         ProcessResult.success (successRecord env id name mime paths)) := by
  have hie : paths.isEmpty = false := by
    cases paths with
    | nil => exact absurd rfl hne
    | cons a l => rfl
  simp only [process_document, hacq, hext, hie, successRecord]
  exact rfl

theorem process_document_success_inv (env : Env) (root root' : Root)
    (wd id name mime : String) (r : DocumentRecord)
    (h : process_document env root wd id name mime = (root', ProcessResult.success r)) :
    ∃ paths : List String, paths ≠ [] ∧ r = successRecord env id name mime paths := by
  simp only [process_document] at h
  cases hacq : acquire_source env id (pdf_path_of wd name) mime with
  | none => rw [hacq] at h; simp at h
  | some b =>
    rw [hacq] at h
    cases b with
    | false => simp at h
    | true =>
      cases hie : (env.extract_pages (pdf_path_of wd name)
          (pages_dir_of wd name)).isEmpty with
      | true => rw [hie] at h; simp at h
      | false =>
        rw [hie] at h
        simp only [Bool.false_eq_true, if_false, Prod.mk.injEq,
          ProcessResult.success.injEq] at h
        refine ⟨env.extract_pages (pdf_path_of wd name) (pages_dir_of wd name), ?_, ?_⟩
        · intro hnil
          simp [hnil] at hie
        · simp only [successRecord]
          exact h.2.symm

/-! ### C4: page-number invariant -/

/-- C4: every record produced by `process_document` satisfies
`total_pages = pages.length` and `pages[i].page_num = i + 1` for every index
`i`: page numbers are 1-based, contiguous and in page order. -/
theorem C4_record_page_invariant (env : Env) (root root' : Root)
    (wd id name mime : String) (r : DocumentRecord)
    (h : process_document env root wd id name mime = (root', ProcessResult.success r)) :
    r.total_pages = r.pages.length ∧
    ∀ (i : Nat) (hi : i < r.pages.length), (r.pages.get ⟨i, hi⟩).page_num = i + 1 := by
  obtain ⟨paths, hne, hr⟩ := process_document_success_inv env root root' wd id name mime r h
  subst hr
  refine ⟨rfl, ?_⟩
  intro i hi
  simp only [successRecord] at hi ⊢
  rw [build_page_summaries_page_num env paths 1 i hi]
  omega

/-- The one-page record produced by `env0` for the sample inputs below. -/
def r0 : DocumentRecord :=
  { doc_id := "f1", file_name := "a.pdf", mime_type := "application/pdf",
    total_pages := 1, document_summary := "doc summary",
    pages := [{ page_num := 1, summary := "page summary", image_path := "p1" }] }

theorem C4_witness :
    r0.total_pages = r0.pages.length ∧
    ∀ (i : Nat) (hi : i < r0.pages.length), (r0.pages.get ⟨i, hi⟩).page_num = i + 1 :=
  C4_record_page_invariant env0 [] [("a.pdf", DirContent.sidecar (storedOf r0))]
    "wd" "f1" "a.pdf" "application/pdf" r0 (by decide)

/-! ### C8: empty rasterization is definitive failure -/

/-- C8: a source whose bytes cannot be parsed makes the rasterizer return the
empty sequence instead of raising, and the pipeline treats an empty
rasterization result as the rasterization failure for that document — never
as a valid zero-page document (the result is not `success r` for any `r`). -/
theorem C8_empty_rasterization (pdf : ParsedPdf) (dir : List Char) (env : Env)
    (root : Root) (wd id name mime : String) (r : DocumentRecord)
    (hparse : pdf = none)
    (hacq : acquire_source env id (pdf_path_of wd name) mime = some true)
    (hempty : env.extract_pages (pdf_path_of wd name) (pages_dir_of wd name) = []) :
    extract_pages_as_images pdf dir = [] ∧
    process_document env root wd id name mime
      = (mkdirEntry root (doc_slug_of name), ProcessResult.rasterizationFailed) ∧
    (process_document env root wd id name mime).2 ≠ ProcessResult.success r := by
  have hproc : process_document env root wd id name mime
      = (mkdirEntry root (doc_slug_of name), ProcessResult.rasterizationFailed) := by
    simp only [process_document, hacq, hempty]
    rfl
  refine ⟨by rw [hparse]; rfl, hproc, ?_⟩
  rw [hproc]
  simp

/-- Oracle environment whose rasterizer produces no pages. -/
def env8 : Env :=
  { env0 with extract_pages := fun _ _ => [] }

theorem C8_witness :
    extract_pages_as_images none [] = [] ∧
    process_document env8 [] "wd" "i" "n.pdf" "application/pdf"
      = (mkdirEntry [] (doc_slug_of "n.pdf"), ProcessResult.rasterizationFailed) ∧
    (process_document env8 [] "wd" "i" "n.pdf" "application/pdf").2
      ≠ ProcessResult.success r0 :=
  C8_empty_rasterization none [] env8 [] "wd" "i" "n.pdf" "application/pdf" r0
    rfl (by decide) rfl

/-! ### C9: a failed page-summary call degrades, never aborts -/

/-- C9: when the page-summarization call for page `k + 1` fails, the
summarizer returns the sentinel string, the document's processing still
succeeds, the produced record contains that page with the sentinel as its
summary, and the record (sentinel included) is persisted in the document's
sidecar. -/
theorem C9_page_failure_degraded (env : Env) (root : Root)
    (wd id name mime : String) (paths : List String) (k : Nat) (msg : String)
    (hacq : acquire_source env id (pdf_path_of wd name) mime = some true)
    (hext : env.extract_pages (pdf_path_of wd name) (pages_dir_of wd name) = paths)
    (hne : paths ≠ [])
    (hk : k < paths.length)
    (hfail : env.page_api (paths.get ⟨k, hk⟩) (k + 1) = Except.error msg) :
    process_document env root wd id name mime
      = (writeSidecar (mkdirEntry root (doc_slug_of name)) (doc_slug_of name)
           (storedOf (successRecord env id name mime paths)),
         ProcessResult.success (successRecord env id name mime paths)) ∧
    (successRecord env id name mime paths).pages[k]?
      = some { page_num := k + 1,
               summary := "Error processing page " ++ toString (k + 1),
               image_path := paths.get ⟨k, hk⟩ } ∧
    lookup? (writeSidecar (mkdirEntry root (doc_slug_of name)) (doc_slug_of name)
        (storedOf (successRecord env id name mime paths))) (doc_slug_of name)
      = some (DirContent.sidecar (storedOf (successRecord env id name mime paths))) := by
  refine ⟨process_document_success_eq env root wd id name mime paths hacq hext hne,
    ?_, lookup?_persist root (doc_slug_of name) _⟩
  show (build_page_summaries env 1 paths)[k]? = _
  rw [build_page_summaries_getElem? env paths 1 k hk]
  have h1 : 1 + k = k + 1 := by omega
  rw [h1]
  unfold summarize_page_image
  rw [hfail]

/-- Oracle environment whose page-summary call fails on page 1. -/
def env9 : Env :=
  { env0 with page_api := fun _ n =>
      if n = 1 then Except.error "boom" else Except.ok "ok" }

theorem C9_witness :
    process_document env9 [] "wd" "f1" "a.pdf" "application/pdf"
      = (writeSidecar (mkdirEntry [] (doc_slug_of "a.pdf")) (doc_slug_of "a.pdf")
           (storedOf (successRecord env9 "f1" "a.pdf" "application/pdf" ["p1"])),
         ProcessResult.success (successRecord env9 "f1" "a.pdf" "application/pdf" ["p1"])) ∧
    (successRecord env9 "f1" "a.pdf" "application/pdf" ["p1"]).pages[0]?
      = some { page_num := 0 + 1,
               summary := "Error processing page " ++ toString (0 + 1),
               image_path := ["p1"].get ⟨0, by decide⟩ } ∧
    lookup? (writeSidecar (mkdirEntry [] (doc_slug_of "a.pdf")) (doc_slug_of "a.pdf")
        (storedOf (successRecord env9 "f1" "a.pdf" "application/pdf" ["p1"])))
        (doc_slug_of "a.pdf")
      = some (DirContent.sidecar
          (storedOf (successRecord env9 "f1" "a.pdf" "application/pdf" ["p1"]))) :=
  C9_page_failure_degraded env9 [] "wd" "f1" "a.pdf" "application/pdf" ["p1"] 0 "boom"
    (by decide) rfl (by decide) (by decide) rfl

/-! ### C10: a failed document-summary call degrades, never aborts -/

/-- C10: when the document-level summarization call fails, `process_document`
still constructs, persists and returns a record; its `document_summary` is
the sentinel naming the document, and every other field (doc id, file name,
mime type, page count, pages) is exactly what a successful call would have
produced. -/
theorem C10_doc_summary_failure (env : Env) (root : Root)
    (wd id name mime : String) (paths : List String) (msg : String)
    (hacq : acquire_source env id (pdf_path_of wd name) mime = some true)
    (hext : env.extract_pages (pdf_path_of wd name) (pages_dir_of wd name) = paths)
    (hne : paths ≠ [])
    (hfail : env.doc_api (build_page_summaries env 1 paths) name = Except.error msg) :
    process_document env root wd id name mime
      = (writeSidecar (mkdirEntry root (doc_slug_of name)) (doc_slug_of name)
           (storedOf (successRecord env id name mime paths)),
         ProcessResult.success (successRecord env id name mime paths)) ∧
    successRecord env id name mime paths
      = { doc_id := id, file_name := name, mime_type := mime,
          total_pages := paths.length,
          document_summary := "Error summarizing document " ++ name,
          pages := build_page_summaries env 1 paths } ∧
    lookup? (writeSidecar (mkdirEntry root (doc_slug_of name)) (doc_slug_of name)
        (storedOf (successRecord env id name mime paths))) (doc_slug_of name)
      = some (DirContent.sidecar (storedOf (successRecord env id name mime paths))) := by
  refine ⟨process_document_success_eq env root wd id name mime paths hacq hext hne,
    ?_, lookup?_persist root (doc_slug_of name) _⟩
  unfold successRecord summarize_document_from_pages
  rw [hfail, build_page_summaries_length]

/-- Oracle environment whose document-summary call fails. -/
def env10 : Env :=
  { env0 with doc_api := fun _ _ => Except.error "boom" }

theorem C10_witness :
    process_document env10 [] "wd" "f1" "a.pdf" "application/pdf"
      = (writeSidecar (mkdirEntry [] (doc_slug_of "a.pdf")) (doc_slug_of "a.pdf")
           (storedOf (successRecord env10 "f1" "a.pdf" "application/pdf" ["p1"])),
         ProcessResult.success (successRecord env10 "f1" "a.pdf" "application/pdf" ["p1"])) ∧
    successRecord env10 "f1" "a.pdf" "application/pdf" ["p1"]
      = { doc_id := "f1", file_name := "a.pdf", mime_type := "application/pdf",
          total_pages := (["p1"] : List String).length,
          document_summary := "Error summarizing document " ++ "a.pdf",
          pages := build_page_summaries env10 1 ["p1"] } ∧
    lookup? (writeSidecar (mkdirEntry [] (doc_slug_of "a.pdf")) (doc_slug_of "a.pdf")
        (storedOf (successRecord env10 "f1" "a.pdf" "application/pdf" ["p1"])))
        (doc_slug_of "a.pdf")
      = some (DirContent.sidecar
          (storedOf (successRecord env10 "f1" "a.pdf" "application/pdf" ["p1"]))) :=
  C10_doc_summary_failure env10 [] "wd" "f1" "a.pdf" "application/pdf" ["p1"] "boom"
    (by decide) rfl (by decide) rfl

/-! ### C3: rasterizer output paths -/

/-- C3 (amended): for every successfully parsed non-empty source the
rasterizer returns exactly one image path per page, and — for sources of at
most 9999 pages — the returned paths are strictly increasing under
lexicographic string comparison.  Beyond 9999 pages the `%04d` zero padding
is exceeded and lexicographic order no longer matches page order. -/
theorem C3_rasterize_page_order (pdf : ParsedPdf) (pages : List Unit) (dir : List Char)
    (hparse : pdf = some pages) (_hne : pages ≠ []) :
    (extract_pages_as_images pdf dir).length = pages.length ∧
    (pages.length ≤ 9999 →
      List.Chain' (fun a b => lexLt a b = true) (extract_pages_as_images pdf dir)) := by
  subst hparse
  constructor
  · simp [extract_pages_as_images]
  · intro hle
    rw [List.chain'_iff_get]
    intro i hi
    simp only [extract_pages_as_images, List.length_map, List.length_range'] at hi
    simp only [extract_pages_as_images, List.get_eq_getElem, List.getElem_map,
      List.getElem_range']
    apply lexLt_pageImagePath
    · omega
    · omega

theorem C3_witness :
    (extract_pages_as_images (some [(), ()]) "out".data).length
        = ([(), ()] : List Unit).length ∧
    (([(), ()] : List Unit).length ≤ 9999 →
      List.Chain' (fun a b => lexLt a b = true)
        (extract_pages_as_images (some [(), ()]) "out".data)) :=
  C3_rasterize_page_order (some [(), ()]) [(), ()] "out".data rfl (by decide)

theorem chain'_pagePaths_adjacent (dir : List Char) (n : Nat)
    (h : List.Chain' (fun a b => lexLt a b = true)
      ((List.range' 1 n).map (pageImagePath dir)))
    (i : Nat) (hi : i + 1 < n) :
    lexLt (pageImagePath dir (1 + i)) (pageImagePath dir (1 + (i + 1))) = true := by
  rw [List.chain'_iff_get] at h
  have hlen : ((List.range' 1 n).map (pageImagePath dir)).length = n := by
    simp
  have hb : i < ((List.range' 1 n).map (pageImagePath dir)).length - 1 := by omega
  have hx := h i hb
  simp only [List.get_eq_getElem, List.getElem_map, List.getElem_range'] at hx
  simpa using hx

/-- C3 counterexample: for a 10000-page source the returned paths are not in
strictly increasing lexicographic order — `page_10000.png` sorts before
`page_9999.png` (digit `1` precedes digit `9`) — so the ordering clause fails
for sources of arbitrary page count. -/
theorem C3_counterexample :
    extract_pages_as_images (some (List.replicate 10000 ())) "out".data
      = (List.range' 1 10000).map (pageImagePath "out".data) ∧
    ¬ List.Chain' (fun a b => lexLt a b = true)
        ((List.range' 1 10000).map (pageImagePath "out".data)) := by
  constructor
  · simp only [extract_pages_as_images, List.length_replicate]
  · intro h
    have hx := chain'_pagePaths_adjacent "out".data 10000 h 9998 (by decide)
    revert hx
    decide

/-! ### Loading: lookup and counting lemmas -/

/-- The key under which one directory entry contributes to the loaded
document dictionary: `none` when the entry is skipped (no sidecar, parse
failure, falsy doc id). -/
def entryKey (e : String × DirContent) : Option String :=
  match e.2 with
  | DirContent.sidecar j => if j.doc_id = "" then none else some j.doc_id
  | _ => none

theorem load_step_of_key_none (wd : String) (docs : List (String × LoadedRecord))
    (e : String × DirContent) (h : entryKey e = none) :
    load_step wd docs e = docs := by
  rcases e with ⟨n, c⟩
  cases c with
  | noSidecar => rfl
  | malformedSidecar => rfl
  | sidecar j =>
    by_cases hid : j.doc_id = ""
    · simp [load_step, hid]
    · simp [entryKey, hid] at h

theorem load_step_of_key_some (wd : String) (docs : List (String × LoadedRecord))
    (e : String × DirContent) (k : String) (h : entryKey e = some k) :
    ∃ j : SidecarJson, e.2 = DirContent.sidecar j ∧ j.doc_id = k ∧
      load_step wd docs e = upsert docs k ⟨j, wd ++ "/" ++ e.1⟩ := by
  rcases e with ⟨n, c⟩
  cases c with
  | noSidecar => simp [entryKey] at h
  | malformedSidecar => simp [entryKey] at h
  | sidecar j =>
    by_cases hid : j.doc_id = ""
    · simp [entryKey, hid] at h
    · simp only [entryKey, hid, if_false, Option.some.injEq] at h
      subst h
      exact ⟨j, rfl, rfl, by simp [load_step, hid]⟩

theorem entryKey_none_sidecar (e : String × DirContent) (j : SidecarJson)
    (hj : e.2 = DirContent.sidecar j) (h : entryKey e = none) : j.doc_id = "" := by
  rcases e with ⟨n, c⟩
  cases c with
  | noSidecar => exact absurd hj (by simp)
  | malformedSidecar => exact absurd hj (by simp)
  | sidecar j0 =>
    injection hj with hjj
    subst hjj
    by_cases hid : j0.doc_id = ""
    · exact hid
    · simp [entryKey, hid] at h

theorem load_loop_lookup (wd key : String) (v : LoadedRecord) :
    ∀ (entries : Root) (docs : List (String × LoadedRecord)),
      (∀ e ∈ entries, ∀ j : SidecarJson, e.2 = DirContent.sidecar j → j.doc_id = key →
        (⟨j, wd ++ "/" ++ e.1⟩ : LoadedRecord) = v) →
      key ≠ "" →
      (lookup? docs key = some v ∨
        ∃ e ∈ entries, ∃ j : SidecarJson, e.2 = DirContent.sidecar j ∧ j.doc_id = key) →
      lookup? (load_documents_loop wd entries docs) key = some v := by
  intro entries
  induction entries with
  | nil =>
    intro docs hval hkey hstart
    rcases hstart with h | ⟨e, he, _⟩
    · exact h
    · exact absurd he (List.not_mem_nil e)
  | cons e rest ih =>
    intro docs hval hkey hstart
    show lookup? (load_documents_loop wd rest (load_step wd docs e)) key = some v
    have hval' : ∀ e' ∈ rest, ∀ j : SidecarJson, e'.2 = DirContent.sidecar j →
        j.doc_id = key → (⟨j, wd ++ "/" ++ e'.1⟩ : LoadedRecord) = v :=
      fun e' he' => hval e' (List.mem_cons_of_mem e he')
    cases hk : entryKey e with
    | none =>
      rw [load_step_of_key_none wd docs e hk]
      apply ih docs hval' hkey
      rcases hstart with h | ⟨e', he', j', hj', hk'⟩
      · exact Or.inl h
      · rcases List.mem_cons.mp he' with heq | hmem
        · subst heq
          have hid := entryKey_none_sidecar e' j' hj' hk
          exact absurd (by rw [← hk']; exact hid : key = "") hkey
        · exact Or.inr ⟨e', hmem, j', hj', hk'⟩
    | some k =>
      obtain ⟨j, hj, hjk, hstep⟩ := load_step_of_key_some wd docs e k hk
      rw [hstep]
      by_cases hkk : k = key
      · subst hkk
        have hv : (⟨j, wd ++ "/" ++ e.1⟩ : LoadedRecord) = v :=
          hval e (List.mem_cons_self e rest) j hj hjk
        apply ih _ hval' hkey
        left
        rw [hv]
        exact lookup?_upsert_self docs k v
      · apply ih _ hval' hkey
        rcases hstart with h | ⟨e', he', j', hj', hk'⟩
        · left
          rw [lookup?_upsert_ne docs key k _ hkk]
          exact h
        · rcases List.mem_cons.mp he' with heq | hmem
          · subst heq
            rw [hj'] at hj
            injection hj with hj2
            refine absurd ?_ hkk
            rw [← hjk, ← hj2]
            exact hk'
          · right
            exact ⟨e', hmem, j', hj', hk'⟩

theorem load_loop_length (wd : String) :
    ∀ (entries : Root) (docs : List (String × LoadedRecord)),
      (entries.filterMap entryKey).Nodup →
      (∀ k ∈ entries.filterMap entryKey, lookup? docs k = none) →
      (load_documents_loop wd entries docs).length
        = docs.length + (entries.filterMap entryKey).length := by
  intro entries
  induction entries with
  | nil => intro docs _ _; simp [load_documents_loop]
  | cons e rest ih =>
    intro docs hnd hlk
    show (load_documents_loop wd rest (load_step wd docs e)).length = _
    cases hk : entryKey e with
    | none =>
      have hfm : (e :: rest).filterMap entryKey = rest.filterMap entryKey := by
        simp [List.filterMap_cons, hk]
      rw [load_step_of_key_none wd docs e hk]
      rw [hfm] at hnd hlk ⊢
      exact ih docs hnd hlk
    | some k =>
      obtain ⟨j, hj, hjk, hstep⟩ := load_step_of_key_some wd docs e k hk
      have hfm : (e :: rest).filterMap entryKey = k :: rest.filterMap entryKey := by
        simp [List.filterMap_cons, hk]
      rw [hfm] at hnd hlk
      rw [List.nodup_cons] at hnd
      rw [hstep]
      have hlen : (upsert docs k ⟨j, wd ++ "/" ++ e.1⟩).length = docs.length + 1 :=
        length_upsert_of_lookup_none docs k _ (hlk k (List.mem_cons_self k _))
      have hlk' : ∀ k' ∈ rest.filterMap entryKey,
          lookup? (upsert docs k ⟨j, wd ++ "/" ++ e.1⟩) k' = none := by
        intro k' hk'
        have hne : k ≠ k' := fun hkk => hnd.1 (hkk ▸ hk')
        rw [lookup?_upsert_ne docs k' k _ hne]
        exact hlk k' (List.mem_cons_of_mem k hk')
      rw [ih _ hnd.2 hlk', hlen, hfm]
      simp only [List.length_cons]
      omega

/-! ### C5: persist / loadAll round trip -/

/-- C5 (amended): persisting a record `R` under a root and re-scanning the
root recovers, under `R.docId`, the parsed sidecar (all fields of `R` with
`image_path` stripped from the pages) together with the storage location
`root/<sanitized name>` — provided `R.docId` is non-empty (`loadAll` skips a
falsy doc id) and no other subdirectory's sidecar carries the same doc id
(the dictionary is keyed by doc id, so a duplicate would shadow). -/
theorem C5_persist_load_roundtrip (wd : String) (root : Root) (r : DocumentRecord)
    (hid : r.doc_id ≠ "")
    (hothers : ∀ e ∈ root, e.1 ≠ doc_slug_of r.file_name →
      ∀ j : SidecarJson, e.2 = DirContent.sidecar j → j.doc_id ≠ r.doc_id) :
    lookup? (load_documents wd (persist_record root r)) r.doc_id
      = some ⟨storedOf r, wd ++ "/" ++ doc_slug_of r.file_name⟩ := by
  unfold load_documents persist_record
  apply load_loop_lookup wd r.doc_id _ _ []
  · intro e he j hj hk
    rcases mem_writeSidecar _ _ _ e he with heq | ⟨hmem, hne⟩
    · subst heq
      injection hj with hj2
      subst hj2
      rfl
    · rcases mem_mkdirEntry _ _ _ hmem with hroot | heq2
      · exact absurd hk (hothers e hroot hne j hj)
      · rw [heq2] at hne
        exact absurd rfl hne
  · exact hid
  · right
    refine ⟨(doc_slug_of r.file_name, DirContent.sidecar (storedOf r)), ?_,
      storedOf r, rfl, rfl⟩
    exact writeSidecar_mem_target _ _ _
      (mkdirEntry_exists_name root (doc_slug_of r.file_name))

/-- A record whose doc id is the empty string. -/
def badRecord : DocumentRecord :=
  { doc_id := "", file_name := "a.pdf", mime_type := "application/pdf",
    total_pages := 0, document_summary := "s", pages := [] }

/-- C5 counterexample: the record with empty `doc_id` is persisted, but
`loadAll` does not map its doc id to anything (`if doc_id:` skips it), so the
round trip fails for it. -/
theorem C5_counterexample :
    lookup? (load_documents "wd" (persist_record [] badRecord)) badRecord.doc_id
      = none := by
  rfl

/-- A well-formed sample record. -/
def r5 : DocumentRecord :=
  { doc_id := "D1", file_name := "b c.pdf", mime_type := "application/pdf",
    total_pages := 1, document_summary := "sum",
    pages := [{ page_num := 1, summary := "p", image_path := "img" }] }

theorem C5_witness :
    lookup? (load_documents "wd" (persist_record [] r5)) r5.doc_id
      = some ⟨storedOf r5, "wd" ++ "/" ++ doc_slug_of r5.file_name⟩ :=
  C5_persist_load_roundtrip "wd" [] r5 (by decide)
    (fun e he => absurd he (List.not_mem_nil e))

/-! ### C7: malformed sidecars are skipped -/

/-- C7 (amended): a malformed sidecar contributes nothing to `loadAll` and
never fails the scan: prepending a malformed entry leaves the result
unchanged, and the number of loaded records equals the number of well-formed
sidecars (parseable with a non-empty doc id) provided those doc ids are
pairwise distinct — duplicated doc ids collapse into one dictionary slot. -/
theorem C7_malformed_skipped (wd mname : String) (root : Root)
    (hnodup : (root.filterMap entryKey).Nodup) :
    load_documents wd ((mname, DirContent.malformedSidecar) :: root)
      = load_documents wd root ∧
    (load_documents wd ((mname, DirContent.malformedSidecar) :: root)).length
      = (root.filterMap entryKey).length := by
  have h1 : load_documents wd ((mname, DirContent.malformedSidecar) :: root)
      = load_documents wd root := rfl
  refine ⟨h1, ?_⟩
  rw [h1]
  unfold load_documents
  have h2 := load_loop_length wd root [] hnodup (fun k _ => rfl)
  simpa using h2

def j1 : SidecarJson :=
  { doc_id := "D1", file_name := "a.pdf", mime_type := "application/pdf",
    total_pages := 1, document_summary := "s1",
    pages := [{ page_num := 1, summary := "p1" }] }

def j2 : SidecarJson :=
  { doc_id := "D2", file_name := "b.pdf", mime_type := "application/pdf",
    total_pages := 1, document_summary := "s2",
    pages := [{ page_num := 1, summary := "p2" }] }

theorem C7_witness :
    load_documents "wd" [("m", DirContent.malformedSidecar),
        ("a", DirContent.sidecar j1), ("b", DirContent.sidecar j2)]
      = load_documents "wd" [("a", DirContent.sidecar j1), ("b", DirContent.sidecar j2)] ∧
    (load_documents "wd" [("m", DirContent.malformedSidecar),
        ("a", DirContent.sidecar j1), ("b", DirContent.sidecar j2)]).length
      = ([("a", DirContent.sidecar j1), ("b", DirContent.sidecar j2)].filterMap
          entryKey).length :=
  C7_malformed_skipped "wd" "m" [("a", DirContent.sidecar j1), ("b", DirContent.sidecar j2)]
    (by decide)

/-- Two distinct well-formed sidecar files whose doc ids coincide. -/
def jdup : SidecarJson :=
  { doc_id := "X", file_name := "a.pdf", mime_type := "application/pdf",
    total_pages := 0, document_summary := "s", pages := [] }

/-- C7 counterexample: a root with one malformed sidecar and two well-formed
sidecar files (sharing the doc id `X`) loads into a dictionary with a single
record, not two — the claim's "exactly N records" fails without a
distinct-doc-id assumption. -/
theorem C7_counterexample :
    (load_documents "wd" [("a", DirContent.sidecar jdup), ("b", DirContent.sidecar jdup),
        ("m", DirContent.malformedSidecar)]).length = 1 ∧
    (load_documents "wd" [("a", DirContent.sidecar jdup), ("b", DirContent.sidecar jdup),
        ("m", DirContent.malformedSidecar)]).length ≠ 2 := by
  constructor
  · rfl
  · decide

/-! ### Substring occurrence -/

/-- `occursIn x y`: `x` occurs as a contiguous substring of `y`. -/
def occursIn (x y : List Char) : Prop := ∃ p s, y = p ++ x ++ s

theorem prefix_split_sep (c : Char) :
    ∀ (x a b : List Char), c ∉ x → (∃ s, a ++ c :: b = x ++ s) → ∃ t, a = x ++ t := by
  intro x
  induction x with
  | nil => intro a b _ _; exact ⟨a, rfl⟩
  | cons d ds ih =>
    intro a b hc h
    rcases h with ⟨s, hs⟩
    cases a with
    | nil =>
      simp only [List.nil_append, List.cons_append, List.cons.injEq] at hs
      exact absurd (by rw [hs.1]; exact List.mem_cons_self d ds : c ∈ d :: ds) hc
    | cons a0 as =>
      simp only [List.cons_append, List.cons.injEq] at hs
      obtain ⟨h1, h2⟩ := hs
      have hc' : c ∉ ds := fun hm => hc (List.mem_cons_of_mem d hm)
      obtain ⟨t, ht⟩ := ih as b hc' ⟨s, h2⟩
      exact ⟨t, by rw [h1, ht]; rfl⟩

theorem occursIn_split_sep (c : Char) :
    ∀ (a b x : List Char), c ∉ x → occursIn x (a ++ c :: b) →
      occursIn x a ∨ occursIn x b := by
  intro a
  induction a with
  | nil =>
    intro b x hc h
    rcases h with ⟨p, s, hps⟩
    cases p with
    | nil =>
      cases x with
      | nil => exact Or.inl ⟨[], [], rfl⟩
      | cons x0 xs =>
        simp only [List.nil_append, List.cons_append, List.cons.injEq] at hps
        exact absurd (by rw [hps.1]; exact List.mem_cons_self x0 xs : c ∈ x0 :: xs) hc
    | cons p0 ps =>
      simp only [List.nil_append, List.cons_append, List.cons.injEq] at hps
      exact Or.inr ⟨ps, s, hps.2⟩
  | cons a0 as ih =>
    intro b x hc h
    rcases h with ⟨p, s, hps⟩
    cases p with
    | nil =>
      have hpre : ∃ s', (a0 :: as) ++ c :: b = x ++ s' := ⟨s, by simpa using hps⟩
      obtain ⟨t, ht⟩ := prefix_split_sep c x (a0 :: as) b hc hpre
      exact Or.inl ⟨[], t, by simpa using ht⟩
    | cons p0 ps =>
      simp only [List.cons_append, List.cons.injEq] at hps
      rcases ih b x hc ⟨ps, s, hps.2⟩ with h1 | h1
      · rcases h1 with ⟨p', s', h'⟩
        exact Or.inl ⟨a0 :: p', s', by simp [h']⟩
      · exact Or.inr h1

theorem occursIn_joinSep (sep : Char) :
    ∀ (L : List (List Char)) (x : List Char), x ≠ [] → sep ∉ x →
      occursIn x (joinSep sep L) → ∃ l ∈ L, occursIn x l := by
  intro L
  induction L with
  | nil =>
    intro x hne _ h
    rcases h with ⟨p, s, hps⟩
    rcases List.append_eq_nil.mp hps.symm with ⟨h1, _⟩
    rcases List.append_eq_nil.mp h1 with ⟨_, h2⟩
    exact absurd h2 hne
  | cons l ls ih =>
    intro x hne hsep h
    cases ls with
    | nil => exact ⟨l, List.mem_singleton.mpr rfl, h⟩
    | cons l' ls' =>
      have h' : occursIn x (l ++ sep :: joinSep sep (l' :: ls')) := h
      rcases occursIn_split_sep sep l (joinSep sep (l' :: ls')) x hsep h' with h1 | h1
      · exact ⟨l, List.mem_cons_self l _, h1⟩
      · obtain ⟨m, hm, hom⟩ := ih x hne hsep h1
        exact ⟨m, List.mem_cons_of_mem l hm, hom⟩

/-- Executable prefix test, used to evaluate `occursIn` on concrete data. -/
def isPre : List Char → List Char → Bool
  | [], _ => true
  | _ :: _, [] => false
  | a :: as, b :: bs => a == b && isPre as bs

/-- Executable substring test. -/
def occursB (x : List Char) : List Char → Bool
  | [] => isPre x []
  | c :: ys => isPre x (c :: ys) || occursB x ys

theorem isPre_iff : ∀ (x y : List Char), isPre x y = true ↔ ∃ s, y = x ++ s := by
  intro x
  induction x with
  | nil => intro y; simp [isPre]
  | cons a as ih =>
    intro y
    cases y with
    | nil => simp [isPre]
    | cons b bs =>
      simp only [isPre, Bool.and_eq_true, beq_iff_eq, ih bs]
      constructor
      · rintro ⟨rfl, s, rfl⟩
        exact ⟨s, rfl⟩
      · rintro ⟨s, hs⟩
        simp only [List.cons_append, List.cons.injEq] at hs
        exact ⟨hs.1.symm, s, hs.2⟩

theorem occursB_iff : ∀ (y x : List Char), occursB x y = true ↔ occursIn x y := by
  intro y
  induction y with
  | nil =>
    intro x
    show isPre x [] = true ↔ _
    rw [isPre_iff]
    constructor
    · rintro ⟨s, hs⟩
      exact ⟨[], s, by simpa using hs⟩
    · rintro ⟨p, s, hps⟩
      rcases List.append_eq_nil.mp hps.symm with ⟨h1, h2⟩
      rcases List.append_eq_nil.mp h1 with ⟨hp, hx⟩
      exact ⟨[], by rw [hx]; rfl⟩
  | cons c ys ih =>
    intro x
    show (isPre x (c :: ys) || occursB x ys) = true ↔ _
    simp only [Bool.or_eq_true, isPre_iff, ih]
    constructor
    · rintro (⟨s, hs⟩ | hocc)
      · exact ⟨[], s, by simpa using hs⟩
      · rcases hocc with ⟨p, s, hps⟩
        exact ⟨c :: p, s, by simp [hps]⟩
    · rintro ⟨p, s, hps⟩
      cases p with
      | nil => exact Or.inl ⟨s, by simpa using hps⟩
      | cons p0 ps =>
        simp only [List.cons_append, List.cons.injEq] at hps
        exact Or.inr ⟨ps, s, hps.2⟩

/-! ### The per-file result is independent of the filesystem state -/

/-- The outcome of processing one listed file, as a pure function of the
environment (the filesystem threading in `process_document` never influences
the returned value). -/
def resultOf (env : Env) (wd : String) (f : FileMeta) : ProcessResult :=
  (process_document env [] wd f.id f.name f.mimeType).2

theorem process_document_snd (env : Env) (root : Root) (wd id name mime : String) :
    (process_document env root wd id name mime).2
      = (process_document env [] wd id name mime).2 := by
  simp only [process_document]
  cases acquire_source env id (pdf_path_of wd name) mime with
  | none => rfl
  | some b =>
    cases b with
    | false => rfl
    | true =>
      cases (env.extract_pages (pdf_path_of wd name) (pages_dir_of wd name)).isEmpty <;>
        rfl

def toRecord? (env : Env) (wd : String) (f : FileMeta) : Option DocumentRecord :=
  match resultOf env wd f with
  | ProcessResult.success r => some r
  | _ => none

/-- The records collected by the step-2 loop, in listing order. -/
def successRecords (env : Env) (wd : String) (files : List FileMeta) :
    List DocumentRecord :=
  files.filterMap (toRecord? env wd)

def succeedsB (env : Env) (wd : String) (f : FileMeta) : Bool :=
  (toRecord? env wd f).isSome

theorem processAll_snd (env : Env) (wd : String) :
    ∀ (files : List FileMeta) (root : Root),
      (processAll env wd root files).2 = successRecords env wd files := by
  intro files
  induction files with
  | nil => intro root; rfl
  | cons f fs ih =>
    intro root
    have hres : resultOf env wd f = (process_document env root wd f.id f.name f.mimeType).2 :=
      (process_document_snd env root wd f.id f.name f.mimeType).symm
    simp only [processAll, successRecords, List.filterMap_cons]
    cases hp : (process_document env root wd f.id f.name f.mimeType).2 with
    | unsupportedType =>
      have ht : toRecord? env wd f = none := by
        simp [toRecord?, hres, hp]
      simp only [ht]
      exact ih _
    | acquisitionFailed =>
      have ht : toRecord? env wd f = none := by
        simp [toRecord?, hres, hp]
      simp only [ht]
      exact ih _
    | rasterizationFailed =>
      have ht : toRecord? env wd f = none := by
        simp [toRecord?, hres, hp]
      simp only [ht]
      exact ih _
    | success r =>
      have ht : toRecord? env wd f = some r := by
        simp [toRecord?, hres, hp]
      simp only [ht]
      exact congrArg (fun t => r :: t)
        (ih (process_document env root wd f.id f.name f.mimeType).1)

theorem length_filter_not_add {α : Type} (p : α → Bool) :
    ∀ l : List α, (l.filter p).length + (l.filter (fun a => ! p a)).length = l.length := by
  intro l
  induction l with
  | nil => rfl
  | cons a l ih =>
    cases hp : p a with
    | true => simp [List.filter_cons, hp]; omega
    | false => simp [List.filter_cons, hp]; omega

theorem successRecords_length_filter (env : Env) (wd : String) :
    ∀ files : List FileMeta,
      (successRecords env wd files).length
        = (files.filter (succeedsB env wd)).length := by
  intro files
  induction files with
  | nil => rfl
  | cons f fs ih =>
    cases ht : toRecord? env wd f with
    | none =>
      have hs : succeedsB env wd f = false := by simp [succeedsB, ht]
      simp only [successRecords, List.filterMap_cons, ht, List.filter_cons, hs]
      simpa [successRecords] using ih
    | some r =>
      have hs : succeedsB env wd f = true := by simp [succeedsB, ht]
      simp only [successRecords, List.filterMap_cons, ht, List.filter_cons, hs]
      simp only [List.length_cons]
      simpa [successRecords] using ih

theorem mem_recordLines :
    ∀ (recs : List DocumentRecord) (l : List Char), l ∈ recordLines recs →
      ∃ r ∈ recs, l = entryLine r ∨ l = summaryLine r := by
  intro recs
  induction recs with
  | nil => intro l h; exact absurd h (List.not_mem_nil l)
  | cons r rs ih =>
    intro l h
    rcases List.mem_cons.mp h with h1 | h2
    · exact ⟨r, List.mem_cons_self r rs, Or.inl h1⟩
    rcases List.mem_cons.mp h2 with h3 | h4
    · exact ⟨r, List.mem_cons_self r rs, Or.inr h3⟩
    · obtain ⟨r', hr', hl⟩ := ih l h4
      exact ⟨r', List.mem_cons_of_mem r hr', hl⟩

/-! ### C6: index contents -/

/-- C6 (amended): the records entering the index are exactly the successfully
processed descriptors, in listing order (`filterMap` over the listing); the
entry count is `K - M` where `M` counts the failing descriptors; and an
excluded descriptor's id does not occur in the rendered text provided it is
non-empty, contains no newline, and does not occur inside the header line or
inside any included document's entry or summary line (an id that happens to
occur inside another document's rendered fields — e.g. as part of a file
name — does appear in the text, which the original claim overlooked). -/
theorem C6_index_entries (env : Env) (root : Root) (wd : String)
    (files : List FileMeta) :
    (processAll env wd root files).2 = successRecords env wd files ∧
    (successRecords env wd files).length
      = files.length - (files.filter (fun f => ! succeedsB env wd f)).length ∧
    (∀ f ∈ files, succeedsB env wd f = false →
      f.id.data ≠ [] → '\n' ∉ f.id.data →
      ¬ occursIn f.id.data headerLine →
      (∀ r ∈ successRecords env wd files,
        ¬ occursIn f.id.data (entryLine r) ∧ ¬ occursIn f.id.data (summaryLine r)) →
      ¬ occursIn f.id.data (index_text (successRecords env wd files))) := by
  refine ⟨processAll_snd env wd files root, ?_, ?_⟩
  · have h1 := length_filter_not_add (succeedsB env wd) files
    have h2 := successRecords_length_filter env wd files
    omega
  · intro f _ _ hne hsep hheader hlines hocc
    obtain ⟨l, hl, holl⟩ :=
      occursIn_joinSep '\n' (headerLine :: recordLines (successRecords env wd files))
        f.id.data hne hsep hocc
    rcases List.mem_cons.mp hl with h1 | h2
    · exact hheader (h1 ▸ holl)
    · obtain ⟨r, hr, hlr⟩ := mem_recordLines (successRecords env wd files) l h2
      rcases hlr with h3 | h3
      · exact (hlines r hr).1 (h3 ▸ holl)
      · exact (hlines r hr).2 (h3 ▸ holl)

/-- Oracle environment for the C6 scenarios: downloads succeed only for the
file ids `f1` and `A`. -/
def envC6 : Env where
  download_file := fun fid _ => fid == "f1" || fid == "A"
  export_as_pdf := fun _ _ => false
  extract_pages := fun _ _ => ["p1"]
  page_api := fun _ _ => Except.ok "ps"
  doc_api := fun _ _ => Except.ok "ds"

def fA : FileMeta := { id := "f1", name := "doc1.pdf", mimeType := "application/pdf" }

def fQ : FileMeta := { id := "Q", name := "bad.pdf", mimeType := "application/pdf" }

theorem C6_witness :
    ¬ occursIn "Q".data (index_text (successRecords envC6 "wd" [fA, fQ])) :=
  (C6_index_entries envC6 [] "wd" [fA, fQ]).2.2 fQ
    (by decide)
    (by decide)
    (by decide)
    (by decide)
    (by
      intro h
      have hb := (occursB_iff headerLine ("Q".data)).mpr h
      revert hb
      decide)
    (by
      intro r hr
      have hs : successRecords envC6 "wd" [fA, fQ]
          = [successRecord envC6 "f1" "doc1.pdf" "application/pdf" ["p1"]] := by decide
      rw [hs, List.mem_singleton] at hr
      subst hr
      constructor
      · intro h
        have hb := (occursB_iff _ _).mpr h
        revert hb
        decide
      · intro h
        have hb := (occursB_iff _ _).mpr h
        revert hb
        decide)

def fX : FileMeta := { id := "A", name := "X", mimeType := "application/pdf" }

def fB : FileMeta := { id := "X", name := "bad.pdf", mimeType := "application/pdf" }

/-- C6 counterexample: descriptor `fB` (id `X`) fails acquisition and is
excluded from the index, yet the string `X` does occur in the rendered text,
because the included descriptor's file name is `X` — so the original claim
"the excluded docIds do not appear anywhere in the rendered text" is false
as stated. -/
theorem C6_counterexample :
    succeedsB envC6 "wd" fB = false ∧
    occursIn "X".data (index_text (successRecords envC6 "wd" [fX, fB])) := by
  refine ⟨by decide, ?_⟩
  have hb : occursB "X".data (index_text (successRecords envC6 "wd" [fX, fB]))
      = true := by decide
  exact (occursB_iff _ _).mp hb

end Lawdit
